import Mathlib

/-!
Shallow embedding of the `traverse` terminal file browser (src/main.cpp).

The program is a single-file ncurses application.  Its navigation core is the
`main` loop (lines 213-326): a current directory path, the formatted listing of
that directory, a selection index, and two history stacks; plus the file pager
`displayFileContent` (lines 129-211).  External collaborators (the directory
enumeration via `opendir`/`readdir`/`stat`, and file reading via `ifstream`)
are modelled as a record of pure functions `FS`; key events from `getch` are an
explicit input list.
-/

/-- One logical key event, as classified by the `switch (ch)` statements:
KEY_UP, KEY_DOWN, KEY_LEFT, KEY_RIGHT, Enter (10), ESC (27), anything else. -/
inductive Key where
  | up
  | down
  | left
  | right
  | enter
  | esc
  | other
deriving DecidableEq

/-- The `mode_t` bits consulted by the program: the file-type tests `S_ISDIR`
and `S_ISREG`, and the nine permission bits read by `formatPermissions`
(main.cpp lines 31-43). -/
structure Mode where
  isDir : Bool
  isReg : Bool
  ur : Bool
  uw : Bool
  ux : Bool
  gr : Bool
  gw : Bool
  gx : Bool
  otr : Bool
  otw : Bool
  otx : Bool
deriving DecidableEq

/-- One permission character: the flag character if the bit is set, `-` otherwise. -/
def permChar (b : Bool) (c : Char) : String :=
  if b then String.singleton c else "-"

/-- `formatPermissions` (main.cpp lines 31-43): a `d`/`-` type character
followed by the nine `rwx` permission characters. -/
def formatPermissions (m : Mode) : String :=
  (if m.isDir then "d" else "-")
    ++ permChar m.ur 'r' ++ permChar m.uw 'w' ++ permChar m.ux 'x'
    ++ permChar m.gr 'r' ++ permChar m.gw 'w' ++ permChar m.gx 'x'
    ++ permChar m.otr 'r' ++ permChar m.otw 'w' ++ permChar m.otx 'x'

/-- The metadata of one file as consumed by the program: the mode bits, the
size (`st_size`, printed in decimal), and the `strftime "%b %d %H:%M"` output
(an opaque string produced by the C library). -/
structure FileMeta where
  mode : Mode
  size : Int
  timeStr : String
deriving DecidableEq

/-- The external filesystem collaborators, as pure functions:
`dirents p` is the sequence of names `readdir` yields for `p` (`none` when
`opendir` fails); `stat p` is the metadata when `stat` succeeds; `fileLines p`
is the list of lines `std::getline` would read (`none` when the file cannot be
opened for reading, i.e. `isReadable` is false). -/
structure FS where
  dirents : String → Option (List String)
  stat : String → Option FileMeta
  fileLines : String → Option (List String)

/-- The formatted row pushed for one entry (main.cpp lines 82-91):
permissions, a space, the decimal size, a space, the time string, a space,
then the file name. -/
def entryLine (meta : FileMeta) (fileName : String) : String :=
  formatPermissions meta.mode ++ " " ++ toString meta.size ++ " "
    ++ meta.timeStr ++ " " ++ fileName

/-- `getDirectoryContents` (main.cpp lines 54-99, Unix branch): if `opendir`
fails the result is empty; otherwise each name whose `stat` on
`dirPath + "/" + name` succeeds contributes its formatted row, in `readdir`
order; names whose `stat` fails are skipped. -/
def getDirectoryContents (fs : FS) (dirPath : String) : List String :=
  match fs.dirents dirPath with
  | none => []
  | some names =>
      names.filterMap (fun name =>
        (fs.stat (dirPath ++ "/" ++ name)).map (fun meta => entryLine meta name))

/-- The characters after the last space of a string, as computed by
`s.substr(s.find_last_of(" ") + 1)` (main.cpp line 268).  When no space
occurs, `find_last_of` returns `npos` and `npos + 1` wraps to `0`, so the
whole string is returned. -/
def suffixAfterLastSpace : List Char → List Char
  | [] => []
  | c :: rest =>
      if ' ' ∈ rest then suffixAfterLastSpace rest
      else if c = ' ' then rest
      else c :: rest

/-- The entry name the Enter handler recovers from a display row
(main.cpp line 268). -/
def selectedName (label : String) : String :=
  String.mk (suffixAfterLastSpace label.data)

/-- `s.substr(0, s.find_last_of(sep))`: everything strictly before the last
occurrence of `sep`, or `none` when `find_last_of` returns `npos`
(main.cpp lines 277-281). -/
def truncAtLast (sep : Char) : List Char → Option (List Char)
  | [] => none
  | c :: rest =>
      match truncAtLast sep rest with
      | some r => some (c :: r)
      | none => if c = sep then some [] else none

/-- The parent path computed by the `".."` branch: truncate at the last `/`;
`none` when the path contains no `/` (main.cpp lines 277-282). -/
def parentOf (path : String) : Option String :=
  (truncAtLast '/' path.data).map (fun cs => String.mk cs)

/-- The navigation state owned by `main` (main.cpp lines 222-234):
`currentDir`, the formatted listing `contents`, the selection index `choice`
(a C `int`, hence `Int`), and the two history stacks (top = head). -/
structure NavState where
  currentDir : String
  contents : List String
  choice : Int
  backStack : List String
  forwardStack : List String
deriving DecidableEq

/-- The KEY_LEFT case (main.cpp lines 297-306): if `backStack` is non-empty,
push `currentDir` onto `forwardStack`, pop the top of `backStack` into
`currentDir`, reload the listing, reset `choice` to 0; otherwise do nothing. -/
def goBack (fs : FS) (s : NavState) : NavState :=
  match s.backStack with
  | [] => s
  | p :: rest =>
      { currentDir := p
        contents := getDirectoryContents fs p
        choice := 0
        backStack := rest
        forwardStack := s.currentDir :: s.forwardStack }

/-- The KEY_RIGHT case (main.cpp lines 307-316): if `forwardStack` is
non-empty, push `currentDir` onto `backStack`, pop the top of `forwardStack`
into `currentDir`, reload the listing, reset `choice` to 0. -/
def goForward (fs : FS) (s : NavState) : NavState :=
  match s.forwardStack with
  | [] => s
  | p :: rest =>
      { currentDir := p
        contents := getDirectoryContents fs p
        choice := 0
        backStack := s.currentDir :: s.backStack
        forwardStack := rest }

/-- The navigation-state effect of the Enter case (main.cpp lines 266-295),
given the selected row `label`.  `selected` and `selectedPath` are built as on
lines 268-269.  When `stat` fails nothing happens.  When the target is a
directory: for `".."` with a separator present, clear the forward stack, push
`currentDir`, truncate at the last `/`; for `".."` with no separator the inner
`if` does nothing; for any other directory, clear the forward stack, push
`currentDir`, set `currentDir` to the target.  In every `S_ISDIR` branch the
listing is then reloaded and `choice` reset to 0 (lines 288-289 sit outside
the inner `if`/`else`).  A regular file runs `displayFileContent`, which
touches none of `main`'s variables, and any other file kind does nothing. -/
def enterNav (fs : FS) (s : NavState) (label : String) : NavState :=
  let selected := selectedName label
  let selectedPath := s.currentDir ++ "/" ++ selected
  match fs.stat selectedPath with
  | none => s
  | some meta =>
      if meta.mode.isDir then
        if selected = ".." then
          match parentOf s.currentDir with
          | some parent =>
              { currentDir := parent
                contents := getDirectoryContents fs parent
                choice := 0
                backStack := s.currentDir :: s.backStack
                forwardStack := [] }
          | none =>
              { s with contents := getDirectoryContents fs s.currentDir
                       choice := 0 }
        else
          { currentDir := selectedPath
            contents := getDirectoryContents fs selectedPath
            choice := 0
            backStack := s.currentDir :: s.backStack
            forwardStack := [] }
      else s

/-- The pager's scroll state (main.cpp lines 155-156). -/
structure PagerSt where
  topLine : Int
  currentLine : Int
deriving DecidableEq

/-- `visibleRows = LINES - 2` (main.cpp line 153). -/
def visibleRowsOf (displayRows : Int) : Int :=
  displayRows - 2

/-- One iteration of the pager's `switch (ch)` (main.cpp lines 183-203) for a
non-ESC key: KEY_UP decrements `currentLine` when positive, then decrements
`topLine` when the cursor moved above it; KEY_DOWN increments `currentLine`
when below `totalLines - 1`, then increments `topLine` when the cursor reached
the bottom of the window; every other key changes nothing. -/
def pagerStep (totalLines visibleRows : Int) (st : PagerSt) (k : Key) : PagerSt :=
  match k with
  | Key.up =>
      let c := if st.currentLine > 0 then st.currentLine - 1 else st.currentLine
      let t := if c < st.topLine then st.topLine - 1 else st.topLine
      { topLine := t, currentLine := c }
  | Key.down =>
      let c := if st.currentLine < totalLines - 1 then st.currentLine + 1
               else st.currentLine
      let t := if st.topLine + visibleRows ≤ c then st.topLine + 1 else st.topLine
      { topLine := t, currentLine := c }
  | _ => st

/-- The pager's `while (!quit)` loop (main.cpp lines 161-204): read one key per
iteration; ESC ends the loop with the state unchanged, any other key is fed to
`pagerStep`.  Returns the final state and the unconsumed input; `none` models
the loop blocked on `getch` with the given input exhausted. -/
def pagerRun (totalLines visibleRows : Int) (st : PagerSt) :
    List Key → Option (PagerSt × List Key)
  | [] => none
  | k :: rest =>
      if k = Key.esc then some (st, rest)
      else pagerRun totalLines visibleRows (pagerStep totalLines visibleRows st k) rest

/-- `displayFileContent` (main.cpp lines 129-211) as an input-stream
transformer.  When the file is not readable (`isReadable` false, i.e.
`fileLines` is `none`) it launches the external opener and returns at once,
consuming no key (lines 131-136; the second `ifstream` open on line 139 cannot
fail in this pure model once the readability probe succeeded).  Otherwise it
runs the pager loop from `topLine = 0, currentLine = 0` with
`visibleRows = displayRows - 2`, and after the loop exits performs one more
blocking `getch` whose key is discarded (line 210). -/
def displayFileContent (fs : FS) (displayRows : Int) (filePath : String)
    (keys : List Key) : Option (List Key) :=
  match fs.fileLines filePath with
  | none => some keys
  | some ls =>
      match pagerRun ((ls.length : Int)) (visibleRowsOf displayRows) ⟨0, 0⟩ keys with
      | none => none
      | some (_, rest) =>
          match rest with
          | [] => none
          | _ :: rest2 => some rest2

/-- The full Enter case (main.cpp lines 266-295) including the input keys the
pager session consumes.  Directory targets and failed `stat`s consume no keys
and behave as `enterNav`; a regular file keeps the navigation state and feeds
the remaining input to `displayFileContent`. -/
def enterSession (fs : FS) (displayRows : Int) (s : NavState) (label : String)
    (keys : List Key) : Option (NavState × List Key) :=
  let selected := selectedName label
  let selectedPath := s.currentDir ++ "/" ++ selected
  match fs.stat selectedPath with
  | none => some (s, keys)
  | some meta =>
      if meta.mode.isDir then some (enterNav fs s label, keys)
      else if meta.mode.isReg then
        (displayFileContent fs displayRows selectedPath keys).map (fun rest => (s, rest))
      else some (s, keys)

/-- One iteration of `main`'s `switch (ch)` (main.cpp lines 259-319),
navigation-state part.  KEY_UP is `choice = max(0, choice - 1)` (line 261),
KEY_DOWN is `choice = min((int)contents.size() - 1, choice + 1)` (line 264).
Enter reads `contents[choice]`; an out-of-range access is undefined behavior,
modelled as `none`.  ESC exits the loop leaving the state unchanged. -/
def navStep (fs : FS) (s : NavState) : Key → Option NavState
  | Key.up => some { s with choice := max 0 (s.choice - 1) }
  | Key.down => some { s with choice := min ((s.contents.length : Int) - 1) (s.choice + 1) }
  | Key.enter =>
      if h : 0 ≤ s.choice ∧ s.choice.toNat < s.contents.length then
        some (enterNav fs s (s.contents.get ⟨s.choice.toNat, h.2⟩))
      else none
  | Key.left => some (goBack fs s)
  | Key.right => some (goForward fs s)
  | Key.esc => some s
  | Key.other => some s

/-- `main`'s `while (true)` loop over a list of key events, navigation-state
part (pager key consumption is handled separately by `enterSession`).  ESC
jumps to `exit`, so the remaining input is not processed. -/
def runNav (fs : FS) : NavState → List Key → Option NavState
  | s, [] => some s
  | s, Key.esc :: _ => some s
  | s, k :: ks =>
      match navStep fs s k with
      | none => none
      | some s2 => runNav fs s2 ks

/-- The pager scroll invariant asserted by the spec: the cursor lies inside the
visible window, and inside `[0, totalLines - 1]` (it stays at 0 for an empty
file). -/
def pagerInv (totalLines visibleRows : Int) (st : PagerSt) : Prop :=
  st.topLine ≤ st.currentLine
    ∧ st.currentLine < st.topLine + visibleRows
    ∧ 0 ≤ st.currentLine
    ∧ (1 ≤ totalLines → st.currentLine ≤ totalLines - 1)
    ∧ (totalLines ≤ 0 → st.currentLine = 0)

/-- A filesystem on which every collaborator call fails. -/
def emptyFS : FS :=
  { dirents := fun _ => none
    stat := fun _ => none
    fileLines := fun _ => none }

/-- Metadata of a sample directory. -/
def dirMetaW : FileMeta :=
  { mode := { isDir := true, isReg := false
              ur := true, uw := true, ux := true
              gr := true, gw := false, gx := true
              otr := true, otw := false, otx := true }
    size := 4096
    timeStr := "Oct 11 12:00" }

/-- Metadata of a sample regular file. -/
def regMetaW : FileMeta :=
  { mode := { isDir := false, isReg := true
              ur := true, uw := true, ux := false
              gr := true, gw := false, gx := false
              otr := true, otw := false, otx := false }
    size := 12
    timeStr := "Oct 11 12:00" }

/-- A sample filesystem: directory `/a` with subdirectory `b` and text file
`f.txt`. -/
def sampleFS : FS :=
  { dirents := fun p =>
      if p = "/a" then some ["..", "b", "f.txt"]
      else if p = "/a/b" then some [".."]
      else none
    stat := fun p =>
      if p = "/a/b" then some dirMetaW
      else if p = "/a/f.txt" then some regMetaW
      else if p = "/a/.." then some dirMetaW
      else none
    fileLines := fun p =>
      if p = "/a/f.txt" then some ["hello", "world"] else none }

/-- If a character list contains no space, the suffix after its last space (in
the `find_last_of` + wrapped `substr` sense) is the whole list. -/
theorem suffixAfterLastSpace_of_not_mem (cs : List Char) (h : ' ' ∉ cs) :
    suffixAfterLastSpace cs = cs := by
  cases cs with
  | nil => rfl
  | cons c rest =>
      have hr : ' ' ∉ rest := fun hm => h (List.mem_cons_of_mem _ hm)
      have hc : ¬ c = ' ' := fun hc => h (hc ▸ List.mem_cons_self c rest)
      simp [suffixAfterLastSpace, hr, hc]

/-- The suffix after the last space of `xs ++ ' ' :: ys` is `ys` whenever `ys`
itself contains no space. -/
theorem suffixAfterLastSpace_append (xs ys : List Char) (h : ' ' ∉ ys) :
    suffixAfterLastSpace (xs ++ ' ' :: ys) = ys := by
  induction xs with
  | nil => simp [suffixAfterLastSpace, h]
  | cons c rest ih =>
      have hmem : ' ' ∈ rest ++ ' ' :: ys := by
        simp
      simpa [suffixAfterLastSpace, hmem] using ih

/-- `truncAtLast` fails exactly like `find_last_of` when the separator is
absent. -/
theorem truncAtLast_of_not_mem (sep : Char) (cs : List Char) (h : sep ∉ cs) :
    truncAtLast sep cs = none := by
  induction cs with
  | nil => rfl
  | cons c rest ih =>
      have hr : sep ∉ rest := fun hm => h (List.mem_cons_of_mem _ hm)
      have hc : ¬ c = sep := fun hc => h (hc ▸ List.mem_cons_self c rest)
      simp [truncAtLast, ih hr, hc]

/-- Truncating a list that starts with the separator and has no later
separator yields the empty prefix. -/
theorem truncAtLast_head (sep : Char) (cs : List Char) (h : sep ∉ cs) :
    truncAtLast sep (sep :: cs) = some [] := by
  simp [truncAtLast, truncAtLast_of_not_mem sep cs h]

/-- Running the pager loop on an ESC-free prefix followed by ESC stops at the
ESC, hands back exactly the input after it, and never blocks. -/
theorem pagerRun_reaches_esc (totalLines visibleRows : Int) :
    ∀ (ks : List Key) (st : PagerSt) (r : List Key), Key.esc ∉ ks →
      ∃ st2, pagerRun totalLines visibleRows st (ks ++ Key.esc :: r) = some (st2, r) := by
  intro ks
  induction ks with
  | nil =>
      intro st r _
      exact ⟨st, by simp [pagerRun]⟩
  | cons k rest ih =>
      intro st r h
      have hk : ¬ k = Key.esc := fun hk => h (hk ▸ List.mem_cons_self k rest)
      have hr : Key.esc ∉ rest := fun hm => h (List.mem_cons_of_mem _ hm)
      obtain ⟨st2, hst2⟩ :=
        ih (pagerStep totalLines visibleRows st k) r hr
      exact ⟨st2, by simp [pagerRun, hk, hst2]⟩

/-- A single pager iteration preserves the scroll invariant, for every key. -/
theorem pagerStep_inv (totalLines visibleRows : Int) (hV : 1 ≤ visibleRows)
    (st : PagerSt) (k : Key) (h : pagerInv totalLines visibleRows st) :
    pagerInv totalLines visibleRows (pagerStep totalLines visibleRows st k) := by
  obtain ⟨h1, h2, h3, h4, h5⟩ := h
  cases k <;>
    simp only [pagerStep, pagerInv] <;>
    (try split_ifs) <;>
    refine ⟨?_, ?_, ?_, ?_, ?_⟩ <;> intros <;> omega

/-- C1 (amended): in browsing mode, on a non-empty listing every Up/Down event
sets `choice` to `clamp(choice + delta, 0, len - 1)` and every Up/Down
sequence keeps `choice` in `[0, len - 1]` with the listing unchanged; on an
empty listing Up at `choice = 0` is a no-op, but Down sets `choice` to `-1`
(because `min((int)contents.size() - 1, choice + 1)` is `min(-1, 1)`), and any
Up/Down sequence keeps `choice` in `{0, -1}`. -/
theorem c1_selection_bounds (fs : FS) (s : NavState) :
    (∀ ks : List Key, (∀ k ∈ ks, k = Key.up ∨ k = Key.down) →
        s.contents ≠ [] → 0 ≤ s.choice → s.choice < (s.contents.length : Int) →
        ∃ s2, runNav fs s ks = some s2 ∧ s2.contents = s.contents
          ∧ 0 ≤ s2.choice ∧ s2.choice < (s.contents.length : Int))
    ∧ (0 ≤ s.choice → s.choice < (s.contents.length : Int) →
        navStep fs s Key.up
            = some { s with choice := max 0 (min ((s.contents.length : Int) - 1) (s.choice - 1)) }
          ∧ navStep fs s Key.down
            = some { s with choice := max 0 (min ((s.contents.length : Int) - 1) (s.choice + 1)) })
    ∧ (s.contents = [] → s.choice = 0 →
        navStep fs s Key.up = some s
          ∧ navStep fs s Key.down = some { s with choice := -1 })
    ∧ (s.contents = [] → (s.choice = 0 ∨ s.choice = -1) →
        ∀ ks : List Key, (∀ k ∈ ks, k = Key.up ∨ k = Key.down) →
          ∃ s2, runNav fs s ks = some s2 ∧ s2.contents = []
            ∧ (s2.choice = 0 ∨ s2.choice = -1)) := by
  have main : ∀ (ks : List Key) (t : NavState),
      (∀ k ∈ ks, k = Key.up ∨ k = Key.down) →
      t.contents ≠ [] → 0 ≤ t.choice → t.choice < (t.contents.length : Int) →
      ∃ s2, runNav fs t ks = some s2 ∧ s2.contents = t.contents
        ∧ 0 ≤ s2.choice ∧ s2.choice < (t.contents.length : Int) := by
    intro ks
    induction ks with
    | nil =>
        intro t _ _ h0 hlt
        exact ⟨t, rfl, rfl, h0, hlt⟩
    | cons k rest ih =>
        intro t hall hne h0 hlt
        have hrest : ∀ k2 ∈ rest, k2 = Key.up ∨ k2 = Key.down :=
          fun k2 hm => hall k2 (List.mem_cons_of_mem _ hm)
        rcases hall k (List.mem_cons_self k rest) with hk | hk <;> subst hk
        · have h0' : (0 : Int) ≤ max 0 (t.choice - 1) := le_max_left 0 _
          have hlt' : max 0 (t.choice - 1) < (t.contents.length : Int) := by omega
          obtain ⟨s2, hrun, hc2, h02, hlt2⟩ :=
            ih { t with choice := max 0 (t.choice - 1) } hrest hne h0' hlt'
          exact ⟨s2, hrun, hc2, h02, hlt2⟩
        · have h0' : (0 : Int) ≤ min ((t.contents.length : Int) - 1) (t.choice + 1) := by omega
          have hlt' : min ((t.contents.length : Int) - 1) (t.choice + 1)
              < (t.contents.length : Int) := by omega
          obtain ⟨s2, hrun, hc2, h02, hlt2⟩ :=
            ih { t with choice := min ((t.contents.length : Int) - 1) (t.choice + 1) }
              hrest hne h0' hlt'
          exact ⟨s2, hrun, hc2, h02, hlt2⟩
  have emptyRun : ∀ (ks : List Key) (t : NavState), t.contents = [] →
      (t.choice = 0 ∨ t.choice = -1) →
      (∀ k ∈ ks, k = Key.up ∨ k = Key.down) →
      ∃ s2, runNav fs t ks = some s2 ∧ s2.contents = []
        ∧ (s2.choice = 0 ∨ s2.choice = -1) := by
    intro ks
    induction ks with
    | nil =>
        intro t hc hch _
        exact ⟨t, rfl, hc, hch⟩
    | cons k rest ih =>
        intro t hc hch hall
        have hrest : ∀ k2 ∈ rest, k2 = Key.up ∨ k2 = Key.down :=
          fun k2 hm => hall k2 (List.mem_cons_of_mem _ hm)
        have hlen0 : (t.contents.length : Int) = 0 := by rw [hc]; rfl
        rcases hall k (List.mem_cons_self k rest) with hk | hk <;> subst hk
        · have hch' : max 0 (t.choice - 1) = 0 ∨ max 0 (t.choice - 1) = -1 := by omega
          obtain ⟨s2, hrun, hc2, hch2⟩ :=
            ih { t with choice := max 0 (t.choice - 1) } hc hch' hrest
          exact ⟨s2, hrun, hc2, hch2⟩
        · have hch' : min ((t.contents.length : Int) - 1) (t.choice + 1) = 0
              ∨ min ((t.contents.length : Int) - 1) (t.choice + 1) = -1 := by omega
          obtain ⟨s2, hrun, hc2, hch2⟩ :=
            ih { t with choice := min ((t.contents.length : Int) - 1) (t.choice + 1) }
              hc hch' hrest
          exact ⟨s2, hrun, hc2, hch2⟩
  refine ⟨fun ks hall => main ks s hall, ?_, ?_,
    fun hc hch ks hall => emptyRun ks s hc hch hall⟩
  · intro h0 hlt
    have hu : max 0 (s.choice - 1)
        = max 0 (min ((s.contents.length : Int) - 1) (s.choice - 1)) := by omega
    have hd : min ((s.contents.length : Int) - 1) (s.choice + 1)
        = max 0 (min ((s.contents.length : Int) - 1) (s.choice + 1)) := by omega
    constructor
    · have hstep : navStep fs s Key.up = some { s with choice := max 0 (s.choice - 1) } := rfl
      rw [hstep, ← hu]
    · have hstep : navStep fs s Key.down
          = some { s with choice := min ((s.contents.length : Int) - 1) (s.choice + 1) } := rfl
      rw [hstep, ← hd]
  · intro hc hch
    have hlen0 : (s.contents.length : Int) = 0 := by rw [hc]; rfl
    have h1 : max 0 (s.choice - 1) = s.choice := by omega
    have h2 : min ((s.contents.length : Int) - 1) (s.choice + 1) = -1 := by omega
    constructor
    · have hstep : navStep fs s Key.up = some { s with choice := max 0 (s.choice - 1) } := rfl
      rw [hstep, h1]
    · have hstep : navStep fs s Key.down
          = some { s with choice := min ((s.contents.length : Int) - 1) (s.choice + 1) } := rfl
      rw [hstep, h2]

/-- C1 counterexample: on an empty listing a Down event is not a no-op —
starting from `choice = 0` it sets `choice = -1`, refuting the claim that
`selectionIndex` stays 0 on an empty listing. -/
theorem c1_counterexample :
    runNav emptyFS ⟨"/", [], 0, [], []⟩ [Key.down] = some ⟨"/", [], -1, [], []⟩
      ∧ (-1 : Int) ≠ 0 := by
  exact ⟨rfl, by decide⟩

/-- C1 witness: a Down event on a two-entry listing at `choice = 0` is the
clamped increment. -/
theorem c1_witness :
    ((0 : Int) ≤ 0 ∧ (0 : Int) < ((["x a", "x b"] : List String).length : Int))
    ∧ navStep emptyFS ⟨"/", ["x a", "x b"], 0, [], []⟩ Key.down
        = some ⟨"/", ["x a", "x b"], 1, [], []⟩ :=
  ⟨⟨by decide, by decide⟩,
    ((c1_selection_bounds emptyFS ⟨"/", ["x a", "x b"], 0, [], []⟩).2.1
      (by decide) (by decide)).2⟩

/-- C2 (amended): `forwardHistory` is cleared exactly by the two committed
descend branches of Enter — a non-`".."` directory entry, or `".."` when
`currentPath` contains a separator.  Going back (Left) does not clear it: the
KEY_LEFT case pushes the old `currentPath` onto `forwardHistory`, so after a
back move `forwardHistory` is non-empty. -/
theorem c2_forward_clearing (fs : FS) (s : NavState) (label : String) (m : FileMeta)
    (hstat : fs.stat (s.currentDir ++ "/" ++ selectedName label) = some m)
    (hdir : m.mode.isDir = true) :
    (selectedName label ≠ ".." → (enterNav fs s label).forwardStack = [])
    ∧ (∀ parent, parentOf s.currentDir = some parent →
        (enterNav fs s label).forwardStack = [])
    ∧ (∀ p rest, s.backStack = p :: rest →
        (goBack fs s).forwardStack = s.currentDir :: s.forwardStack) := by
  refine ⟨?_, ?_, ?_⟩
  · intro hne
    simp [enterNav, hstat, hdir, hne]
  · intro parent hpar
    by_cases hdd : selectedName label = ".."
    · rw [hdd] at hstat
      simp [enterNav, hdd, hstat, hdir, hpar]
    · simp [enterNav, hstat, hdir, hdd]
  · intro p rest hb
    simp [goBack, hb]

/-- C2 counterexample: a back move leaves `forwardHistory` non-empty — from
`/a/b` with back stack `[/a]` and empty forward stack, Left produces forward
stack `[/a/b]`, refuting "after any such move forwardHistory is empty". -/
theorem c2_counterexample :
    goBack emptyFS ⟨"/a/b", [], 0, ["/a"], []⟩ = ⟨"/a", [], 0, [], ["/a/b"]⟩
      ∧ (["/a/b"] : List String) ≠ [] :=
  ⟨rfl, by decide⟩

/-- C2 witness: entering subdirectory `b` of `/a` clears a non-empty forward
stack. -/
theorem c2_witness :
    (sampleFS.stat ("/a" ++ "/" ++ selectedName "lbl b") = some dirMetaW
      ∧ dirMetaW.mode.isDir = true ∧ selectedName "lbl b" ≠ "..")
    ∧ (enterNav sampleFS ⟨"/a", ["lbl b"], 0, [], ["/zzz"]⟩ "lbl b").forwardStack = [] :=
  ⟨⟨by decide, by decide, by decide⟩,
    (c2_forward_clearing sampleFS ⟨"/a", ["lbl b"], 0, [], ["/zzz"]⟩ "lbl b" dirMetaW
      (by decide) (by decide)).1 (by decide)⟩

/-- C3 (amended): every display row produced by the listing provider ends with
the entry name exactly, and the suffix after the last space — the recovery
`enter()` performs — yields the name whenever the name contains no space; for
a name containing a space the recovery returns only the part after the name's
own last space, so the claim fails for such names. -/
theorem c3_label_recovery (meta : FileMeta) (name : String) :
    (∃ p, (entryLine meta name).data = p ++ name.data)
    ∧ (' ' ∉ name.data → selectedName (entryLine meta name) = name) := by
  have h0 : (entryLine meta name).data
      = ((formatPermissions meta.mode ++ " " ++ toString meta.size ++ " "
          ++ meta.timeStr).data ++ [' ']) ++ name.data := rfl
  constructor
  · exact ⟨(formatPermissions meta.mode ++ " " ++ toString meta.size ++ " "
      ++ meta.timeStr).data ++ [' '], h0⟩
  · intro hsp
    have h1 : (entryLine meta name).data
        = (formatPermissions meta.mode ++ " " ++ toString meta.size ++ " "
            ++ meta.timeStr).data ++ ' ' :: name.data := by
      rw [h0, List.append_assoc]
      rfl
    show String.mk (suffixAfterLastSpace (entryLine meta name).data) = name
    rw [h1, suffixAfterLastSpace_append _ _ hsp]

/-- C3 counterexample: for the name `"a b"` (which contains a space) the
suffix-after-last-space recovery used by `enter()` returns `"b"`, not the
name, refuting the claim for names containing spaces. -/
theorem c3_counterexample :
    selectedName (entryLine regMetaW "a b") = "b"
      ∧ selectedName (entryLine regMetaW "a b") ≠ "a b" :=
  ⟨rfl, by decide⟩

/-- C3 witness: a space-free name round-trips through the display row. -/
theorem c3_witness :
    (' ' ∉ ("f.txt" : String).data)
    ∧ selectedName (entryLine regMetaW "f.txt") = "f.txt" :=
  ⟨by decide, (c3_label_recovery regMetaW "f.txt").2 (by decide)⟩

/-- C4: starting at directory `A`, entering subdirectory `B` then Left yields
`currentPath = A` with `A/B` on top of the forward stack; Right then yields
`currentPath = A/B` again; and from any state with at least two back entries,
back-back-forward-forward restores the original `currentPath`. -/
theorem c4_history_symmetry (fs : FS) (s0 : NavState) (label B : String) (m : FileMeta)
    (hname : selectedName label = B) (hdot : B ≠ "..")
    (hstat : fs.stat (s0.currentDir ++ "/" ++ B) = some m)
    (hdir : m.mode.isDir = true) :
    ((enterNav fs s0 label).currentDir = s0.currentDir ++ "/" ++ B
        ∧ (enterNav fs s0 label).backStack = s0.currentDir :: s0.backStack
        ∧ (enterNav fs s0 label).forwardStack = [])
    ∧ ((goBack fs (enterNav fs s0 label)).currentDir = s0.currentDir
        ∧ (goBack fs (enterNav fs s0 label)).forwardStack.head?
            = some (s0.currentDir ++ "/" ++ B))
    ∧ (goForward fs (goBack fs (enterNav fs s0 label))).currentDir
        = s0.currentDir ++ "/" ++ B
    ∧ (∀ (s : NavState) (p q : String) (r : List String), s.backStack = p :: q :: r →
        ∃ s2, runNav fs s [Key.left, Key.left, Key.right, Key.right] = some s2
          ∧ s2.currentDir = s.currentDir) := by
  have he : enterNav fs s0 label
      = ⟨s0.currentDir ++ "/" ++ B, getDirectoryContents fs (s0.currentDir ++ "/" ++ B),
          0, s0.currentDir :: s0.backStack, []⟩ := by
    simp [enterNav, hname, hstat, hdir, hdot]
  refine ⟨?_, ?_, ?_, ?_⟩
  · rw [he]
    exact ⟨rfl, rfl, rfl⟩
  · rw [he]
    exact ⟨rfl, rfl⟩
  · rw [he]
    rfl
  · intro s p q r hb
    have h1 : goBack fs s
        = ⟨p, getDirectoryContents fs p, 0, q :: r, s.currentDir :: s.forwardStack⟩ := by
      simp [goBack, hb]
    have hrun : runNav fs s [Key.left, Key.left, Key.right, Key.right]
        = runNav fs (goBack fs s) [Key.left, Key.right, Key.right] := rfl
    refine ⟨⟨s.currentDir, getDirectoryContents fs s.currentDir, 0, p :: q :: r,
      s.forwardStack⟩, ?_, rfl⟩
    rw [hrun, h1]
    rfl

/-- C4 witness: the enter/back/forward round trip on the sample filesystem. -/
theorem c4_witness :
    (selectedName "lbl b" = "b" ∧ sampleFS.stat ("/a" ++ "/" ++ "b") = some dirMetaW
      ∧ dirMetaW.mode.isDir = true)
    ∧ (enterNav sampleFS ⟨"/a", ["lbl b"], 0, [], []⟩ "lbl b").currentDir = "/a" ++ "/" ++ "b"
    ∧ (goBack sampleFS (enterNav sampleFS ⟨"/a", ["lbl b"], 0, [], []⟩ "lbl b")).currentDir = "/a"
    ∧ (goForward sampleFS (goBack sampleFS
        (enterNav sampleFS ⟨"/a", ["lbl b"], 0, [], []⟩ "lbl b"))).currentDir
          = "/a" ++ "/" ++ "b" := by
  have h := c4_history_symmetry sampleFS ⟨"/a", ["lbl b"], 0, [], []⟩ "lbl b" "b" dirMetaW
    (by decide) (by decide) (by decide) rfl
  exact ⟨⟨by decide, by decide, rfl⟩, h.1.1, h.2.1.1, h.2.2.1⟩

/-- C5: in the pager, for every file and every Up/Down sequence the invariant
`topLine ≤ currentLine < topLine + visibleRows` (with
`visibleRows = displayRows - 2 ≥ 1`) holds after every event, the cursor stays
in `[0, len(lines) - 1]` (at 0 for an empty file), and each event changes
`currentLine` and `topLine` by at most one line. -/
theorem c5_pager_scroll (lines : List String) (displayRows : Int)
    (hV : 1 ≤ visibleRowsOf displayRows) :
    (∀ ks : List Key, (∀ k ∈ ks, k = Key.up ∨ k = Key.down) →
        pagerInv ((lines.length : Int)) (visibleRowsOf displayRows)
          (List.foldl (pagerStep ((lines.length : Int)) (visibleRowsOf displayRows))
            ⟨0, 0⟩ ks))
    ∧ (∀ (st : PagerSt) (k : Key),
        st.currentLine - 1
            ≤ (pagerStep ((lines.length : Int)) (visibleRowsOf displayRows) st k).currentLine
          ∧ (pagerStep ((lines.length : Int)) (visibleRowsOf displayRows) st k).currentLine
            ≤ st.currentLine + 1
          ∧ st.topLine - 1
            ≤ (pagerStep ((lines.length : Int)) (visibleRowsOf displayRows) st k).topLine
          ∧ (pagerStep ((lines.length : Int)) (visibleRowsOf displayRows) st k).topLine
            ≤ st.topLine + 1) := by
  constructor
  · have base : pagerInv ((lines.length : Int)) (visibleRowsOf displayRows) ⟨0, 0⟩ :=
      ⟨le_refl 0,
        by show (0 : Int) < 0 + visibleRowsOf displayRows; omega,
        le_refl 0,
        by show 1 ≤ ((lines.length : Int)) → (0 : Int) ≤ (lines.length : Int) - 1
           intro h; omega,
        fun _ => rfl⟩
    have fold : ∀ (ks : List Key) (st : PagerSt),
        pagerInv ((lines.length : Int)) (visibleRowsOf displayRows) st →
        pagerInv ((lines.length : Int)) (visibleRowsOf displayRows)
          (List.foldl (pagerStep ((lines.length : Int)) (visibleRowsOf displayRows)) st ks) := by
      intro ks
      induction ks with
      | nil => intro st h; exact h
      | cons k rest ih =>
          intro st h
          exact ih _ (pagerStep_inv _ _ hV st k h)
    exact fun ks _ => fold ks ⟨0, 0⟩ base
  · intro st k
    cases k <;>
      simp only [pagerStep] <;>
      (try split_ifs) <;>
      refine ⟨?_, ?_, ?_, ?_⟩ <;> omega

/-- C5 witness: a four-line file paged on a five-row display. -/
theorem c5_witness :
    (1 : Int) ≤ visibleRowsOf 5
    ∧ pagerInv (((["l1", "l2", "l3", "l4"] : List String).length : Int)) (visibleRowsOf 5)
        (List.foldl
          (pagerStep (((["l1", "l2", "l3", "l4"] : List String).length : Int)) (visibleRowsOf 5))
          ⟨0, 0⟩ [Key.down, Key.down, Key.down, Key.up]) :=
  ⟨by decide,
    (c5_pager_scroll ["l1", "l2", "l3", "l4"] 5 (by decide)).1
      [Key.down, Key.down, Key.down, Key.up] (by decide)⟩

/-- C6: when Enter's `stat` on the resolved target fails, no component of the
navigation state changes (`enterNav` is the identity) and the whole Enter
dispatch consumes no input keys. -/
theorem c6_stat_failure (fs : FS) (displayRows : Int) (s : NavState) (label : String)
    (keys : List Key)
    (hstat : fs.stat (s.currentDir ++ "/" ++ selectedName label) = none) :
    enterNav fs s label = s
      ∧ enterSession fs displayRows s label keys = some (s, keys) := by
  constructor
  · simp [enterNav, hstat]
  · simp [enterSession, hstat]

/-- C6 witness: Enter on a filesystem whose `stat` always fails is a no-op. -/
theorem c6_witness :
    (emptyFS.stat ("/a" ++ "/" ++ selectedName "x y") = none)
    ∧ enterNav emptyFS ⟨"/a", ["x y"], 0, ["/b"], ["/c"]⟩ "x y"
        = ⟨"/a", ["x y"], 0, ["/b"], ["/c"]⟩ :=
  ⟨rfl, (c6_stat_failure emptyFS 24 ⟨"/a", ["x y"], 0, ["/b"], ["/c"]⟩ "x y" [] rfl).1⟩

/-- C7 (amended): Enter on a `".."` directory entry computes the parent by
truncating `currentPath` at its last separator; on success it pushes the old
path, clears the forward stack, moves to the parent, reloads the listing and
resets the selection.  When `currentPath` contains no separator, the path and
both stacks are unchanged, but the operation is not a complete no-op: the
listing is still reloaded and `selectionIndex` reset to 0 (main.cpp lines
288-289 run outside the inner `if`). -/
theorem c7_parent_navigation (fs : FS) (s : NavState) (label : String) (m : FileMeta)
    (hname : selectedName label = "..")
    (hstat : fs.stat (s.currentDir ++ "/" ++ "..") = some m)
    (hdir : m.mode.isDir = true) :
    (∀ parent, parentOf s.currentDir = some parent →
        enterNav fs s label
          = ⟨parent, getDirectoryContents fs parent, 0, s.currentDir :: s.backStack, []⟩)
    ∧ (parentOf s.currentDir = none →
        enterNav fs s label
          = { s with contents := getDirectoryContents fs s.currentDir, choice := 0 }) := by
  constructor
  · intro parent hpar
    simp [enterNav, hname, hstat, hdir, hpar]
  · intro hpar
    simp [enterNav, hname, hstat, hdir, hpar]

/-- C7 counterexample: with `currentPath = "noslash"` (no separator) and the
`".."` entry selected at `choice = 1`, Enter is not a complete no-op — the
listing is reloaded (here to `[]`) and `choice` is reset to 0. -/
theorem c7_counterexample :
    navStep
        { dirents := fun _ => none
          stat := fun p => if p = "noslash/.." then some dirMetaW else none
          fileLines := fun _ => none }
        ⟨"noslash", ["a ..", "b .."], 1, [], []⟩ Key.enter
      = some ⟨"noslash", [], 0, [], []⟩
    ∧ (⟨"noslash", [], 0, [], []⟩ : NavState) ≠ ⟨"noslash", ["a ..", "b .."], 1, [], []⟩ :=
  ⟨rfl, by decide⟩

/-- C7 witness: from `/a` the `".."` entry moves to the parent `""` computed
by truncation, pushing `/a` and clearing the forward stack. -/
theorem c7_witness :
    (selectedName "z .." = ".." ∧ sampleFS.stat ("/a" ++ "/" ++ "..") = some dirMetaW
      ∧ parentOf "/a" = some "")
    ∧ enterNav sampleFS ⟨"/a", ["z .."], 0, ["/pre"], ["/fwd"]⟩ "z .."
        = ⟨"", getDirectoryContents sampleFS "", 0, "/a" :: ["/pre"], []⟩ :=
  ⟨⟨rfl, by decide, rfl⟩,
    (c7_parent_navigation sampleFS ⟨"/a", ["z .."], 0, ["/pre"], ["/fwd"]⟩ "z .." dirMetaW
      rfl (by decide) rfl).1 "" rfl⟩

/-- C8: a complete file-paging session — Enter on a regular readable file, any
ESC-free sequence of pager keys, ESC, plus the one key the pager discards
afterwards — returns the navigation state exactly as it was: `currentPath`,
`currentListing`, `selectionIndex` and both history stacks are untouched. -/
theorem c8_pager_frame (fs : FS) (displayRows : Int) (s : NavState) (label : String)
    (m : FileMeta) (ls : List String) (ks : List Key) (x : Key) (rest : List Key)
    (hstat : fs.stat (s.currentDir ++ "/" ++ selectedName label) = some m)
    (hdir : m.mode.isDir = false) (hreg : m.mode.isReg = true)
    (hread : fs.fileLines (s.currentDir ++ "/" ++ selectedName label) = some ls)
    (hks : Key.esc ∉ ks) :
    enterSession fs displayRows s label (ks ++ Key.esc :: x :: rest) = some (s, rest) := by
  obtain ⟨st2, h2⟩ := pagerRun_reaches_esc ((ls.length : Int)) (visibleRowsOf displayRows)
    ks ⟨0, 0⟩ (x :: rest) hks
  simp [enterSession, hstat, hdir, hreg, displayFileContent, hread, h2]

/-- C8 witness: paging `/a/f.txt` with one Down, ESC and the discarded extra
key leaves the browsing state identical. -/
theorem c8_witness :
    (sampleFS.stat ("/a" ++ "/" ++ selectedName "x f.txt") = some regMetaW
      ∧ regMetaW.mode.isDir = false ∧ regMetaW.mode.isReg = true
      ∧ sampleFS.fileLines ("/a" ++ "/" ++ selectedName "x f.txt") = some ["hello", "world"]
      ∧ Key.esc ∉ [Key.down])
    ∧ enterSession sampleFS 24 ⟨"/a", ["x f.txt"], 0, ["/hist"], ["/fw"]⟩ "x f.txt"
        ([Key.down] ++ Key.esc :: Key.other :: [])
      = some (⟨"/a", ["x f.txt"], 0, ["/hist"], ["/fw"]⟩, []) :=
  ⟨⟨by decide, rfl, rfl, by decide, by decide⟩,
    c8_pager_frame sampleFS 24 ⟨"/a", ["x f.txt"], 0, ["/hist"], ["/fw"]⟩ "x f.txt" regMetaW
      ["hello", "world"] [Key.down] Key.other [] (by decide) rfl rfl (by decide) (by decide)⟩

/-- C9: after ESC ends the pager loop, `displayFileContent` blocks for exactly
one more key event and discards it: with one key after ESC the remaining input
is returned unchanged whatever that key is, and with no key after ESC the
program is still blocked. -/
theorem c9_extra_key (fs : FS) (displayRows : Int) (filePath : String) (ls : List String)
    (hread : fs.fileLines filePath = some ls)
    (ks : List Key) (hks : Key.esc ∉ ks) (x : Key) (rest : List Key) :
    displayFileContent fs displayRows filePath (ks ++ Key.esc :: x :: rest) = some rest
    ∧ displayFileContent fs displayRows filePath (ks ++ [Key.esc]) = none := by
  obtain ⟨st2, h2⟩ := pagerRun_reaches_esc ((ls.length : Int)) (visibleRowsOf displayRows)
    ks ⟨0, 0⟩ (x :: rest) hks
  obtain ⟨st3, h3⟩ := pagerRun_reaches_esc ((ls.length : Int)) (visibleRowsOf displayRows)
    ks ⟨0, 0⟩ [] hks
  constructor
  · simp [displayFileContent, hread, h2]
  · simp [displayFileContent, hread, h3]

/-- C9 witness: the key right after ESC (here an arbitrary other key) is
swallowed, and without it the pager has not returned. -/
theorem c9_witness :
    (sampleFS.fileLines "/a/f.txt" = some ["hello", "world"]
      ∧ Key.esc ∉ [Key.down, Key.up])
    ∧ displayFileContent sampleFS 24 "/a/f.txt"
        ([Key.down, Key.up] ++ Key.esc :: Key.other :: []) = some []
    ∧ displayFileContent sampleFS 24 "/a/f.txt" ([Key.down, Key.up] ++ [Key.esc]) = none :=
  ⟨⟨rfl, by decide⟩,
    (c9_extra_key sampleFS 24 "/a/f.txt" ["hello", "world"] rfl
      [Key.down, Key.up] (by decide) Key.other []).1,
    (c9_extra_key sampleFS 24 "/a/f.txt" ["hello", "world"] rfl
      [Key.down, Key.up] (by decide) Key.other []).2⟩

/-- C10: when `currentPath`'s only separator is the leading `/`, Enter on
`".."` truncates to the empty string (not `"/"`), pushes the old path onto the
back stack, the reload of the empty path yields an empty listing (`opendir`
fails), and going back still returns to the old path. -/
theorem c10_root_collapse (fs : FS) (s : NavState) (label : String) (cs : List Char)
    (m : FileMeta)
    (hcur : s.currentDir.data = '/' :: cs) (hnosl : '/' ∉ cs)
    (hname : selectedName label = "..")
    (hstat : fs.stat (s.currentDir ++ "/" ++ "..") = some m)
    (hdir : m.mode.isDir = true)
    (hro : fs.dirents "" = none) :
    enterNav fs s label = ⟨"", [], 0, s.currentDir :: s.backStack, []⟩
    ∧ (goBack fs (enterNav fs s label)).currentDir = s.currentDir := by
  have hpar : parentOf s.currentDir = some "" := by
    unfold parentOf
    rw [hcur, truncAtLast_head '/' cs hnosl]
    rfl
  have hlist : getDirectoryContents fs "" = [] := by
    simp [getDirectoryContents, hro]
  have he : enterNav fs s label = ⟨"", [], 0, s.currentDir :: s.backStack, []⟩ := by
    simp [enterNav, hname, hstat, hdir, hpar, hlist]
  refine ⟨he, ?_⟩
  rw [he]
  rfl

/-- C10 witness: from `/home`, Enter on `".."` lands on the empty path with an
empty listing, and Left returns to `/home`. -/
theorem c10_witness :
    (("/home" : String).data = '/' :: ['h', 'o', 'm', 'e'] ∧ '/' ∉ ['h', 'o', 'm', 'e']
      ∧ selectedName "z .." = ".."
      ∧ FS.stat
          { dirents := fun _ => none
            stat := fun p => if p = "/home/.." then some dirMetaW else none
            fileLines := fun _ => none } ("/home" ++ "/" ++ "..") = some dirMetaW)
    ∧ enterNav
        { dirents := fun _ => none
          stat := fun p => if p = "/home/.." then some dirMetaW else none
          fileLines := fun _ => none }
        ⟨"/home", ["z .."], 0, [], []⟩ "z .." = ⟨"", [], 0, "/home" :: [], []⟩
    ∧ (goBack
        { dirents := fun _ => none
          stat := fun p => if p = "/home/.." then some dirMetaW else none
          fileLines := fun _ => none }
        (enterNav
          { dirents := fun _ => none
            stat := fun p => if p = "/home/.." then some dirMetaW else none
            fileLines := fun _ => none }
          ⟨"/home", ["z .."], 0, [], []⟩ "z ..")).currentDir = "/home" := by
  have h := c10_root_collapse
    { dirents := fun _ => none
      stat := fun p => if p = "/home/.." then some dirMetaW else none
      fileLines := fun _ => none }
    ⟨"/home", ["z .."], 0, [], []⟩ "z .." ['h', 'o', 'm', 'e'] dirMetaW
    rfl (by decide) rfl (by decide) rfl rfl
  exact ⟨⟨rfl, by decide, rfl, by decide⟩, h.1, h.2⟩
